import Mathlib

/-!
Shallow embedding of the Module Composition & Request Routing core of
src/components/IntelligenceDesignStudio.tsx (the IntelligenceDesignStudio
wizard component and the Inquire chat component).

The static intent catalog STRATEGIC_INTENTS is imported by the source from
../constants, which is not part of the reviewed sources; all resolution
results are therefore stated for an arbitrary catalog.  The module phase
catalog MODULE_PHASES is defined in the reviewed file itself and is embedded
verbatim.  React state updates are modelled as explicit state-passing; the
external collaborators (generateFastSuggestion, orchestrateAgentResponse)
are modelled as function parameters returning Except, where an error value
stands for a thrown/rejected promise.
-/

/-- Catalog entry of STRATEGIC_INTENTS (type StrategicIntent from ../types);
the icon field is render-only and omitted. -/
structure StrategicIntent where
  id : String
  title : String
  description : String
  recommendedModules : List String
  personaAlignment : List String
  deriving DecidableEq

/-- The fields of ReportParameters that the embedded handlers read or write.
Optional TypeScript fields are Option; selectedIntents may be undefined
(the code guards every read with a fallback to the empty array). -/
structure ReportParameters where
  userName : String
  organizationType : String
  region : String
  industry : List String
  problemStatement : Option String
  initialThought : Option String
  uploadedFileName : Option String
  uploadedDocument : Bool
  selectedIntent : Option String
  selectedIntents : Option (List String)
  deriving DecidableEq

/-- JavaScript falsiness test for an optional string: undefined and the empty
string are falsy. -/
def strOptFalsy : Option String → Bool
  | none => true
  | some s => s == ""

/-- The newIntents list computed by toggleIntent (lines 80-83): remove the id
with filter when it is already selected, otherwise append it. -/
def toggleNewIntents (params : ReportParameters) (intentId : String) : List String :=
  let currentIntents := params.selectedIntents.getD []
  if currentIntents.contains intentId then
    currentIntents.filter (fun id => id != intentId)
  else
    currentIntents ++ [intentId]

/-- The toggleIntent handler (lines 79-92): store the new list, and keep the
legacy selectedIntent field equal to its first element, or undefined when the
list is empty. -/
def toggleIntent (params : ReportParameters) (intentId : String) : ReportParameters :=
  let newIntents := toggleNewIntents params intentId
  { params with
      selectedIntents := some newIntents,
      selectedIntent := match newIntents with | [] => none | x :: _ => some x }

/-- The handleProceedToCanvas handler (lines 94-101), restricted to its
params update: when no problem statement is set and at least one intent is
selected, synthesize a combined statement from the intent titles. -/
def handleProceedToCanvas (catalog : List StrategicIntent)
    (params : ReportParameters) : ReportParameters :=
  if strOptFalsy params.problemStatement ∧ params.selectedIntents.isSome ∧
      0 < (params.selectedIntents.getD []).length then
    let intentTitles := String.intercalate " + "
      ((params.selectedIntents.getD []).map (fun id =>
        ((catalog.find? (fun i => i.id == id)).map (fun i => i.title)).getD "undefined"))
    { params with problemStatement := some ("Strategic Mission: " ++ intentTitles) }
  else params

/-- The handleInitialThoughtAnalysis handler (lines 103-114), restricted to
its params update; the external refiner is a parameter and an error value
models a rejected promise, which the catch block swallows. -/
def handleInitialThoughtAnalysis (refiner : String → String → Except Unit String)
    (params : ReportParameters) : ReportParameters :=
  if strOptFalsy params.initialThought then params
  else
    match refiner (params.initialThought.getD "")
        "Convert this raw thought into a strategic objective statement." with
    | Except.ok refined => { params with problemStatement := some refined }
    | Except.error _ => params

/-- The handleFileUpload handler (lines 116-121): record the uploaded file
name when a file is present. -/
def handleFileUpload (file : Option String) (params : ReportParameters) : ReportParameters :=
  match file with
  | some name => { params with uploadedFileName := some name, uploadedDocument := true }
  | none => params

/-- Insertion into a JavaScript Set, seen as its insertion-ordered element
list: adding an element already present changes nothing, otherwise it is
appended at the end. -/
def insertUnique (l : List String) (x : String) : List String :=
  if x ∈ l then l else l ++ [x]

/-- Body of the forEach loop of activeEngines (lines 132-137): look the id up
in the intent catalog and union in its recommendedModules; an id absent from
the catalog contributes nothing. -/
def addIntentModules (catalog : List StrategicIntent) (acc : List String)
    (id : String) : List String :=
  match catalog.find? (fun i => i.id == id) with
  | some intent => intent.recommendedModules.foldl insertUnique acc
  | none => acc

/-- Core of the activeEngines memo (lines 124-140) as a function of the
catalog and the selected intent ids: start from the two baseline modules,
then union in the recommended modules of every selected intent found in the
catalog.  The result is Array.from of the Set, i.e. the deduplicated
insertion-order list. -/
def resolveEngines (catalog : List StrategicIntent) (selectedIds : List String) : List String :=
  selectedIds.foldl (addIntentModules catalog)
    (insertUnique (insertUnique [] "geopolitics") "final_review")

/-- The activeEngines memo itself: it reads only params.selectedIntents, with
undefined treated as the empty selection. -/
def activeEngines (catalog : List StrategicIntent) (params : ReportParameters) : List String :=
  resolveEngines catalog (params.selectedIntents.getD [])

/-- The MODULE_PHASES record (lines 42-63), as an association list. -/
def MODULE_PHASES : List (String × String) :=
  [("geopolitics", "Macro"),
   ("rroi", "Macro"),
   ("comfort_index", "Macro"),
   ("math_models", "Macro"),
   ("rocket_engine", "Macro"),
   ("governance_audit", "Integrity"),
   ("due_diligence", "Integrity"),
   ("symbiotic_matchmaking", "Expansion"),
   ("matchmaking_engine", "Expansion"),
   ("seam", "Expansion"),
   ("partner_intel", "Expansion"),
   ("deep_reasoning", "Expansion"),
   ("trade_disruption", "Expansion"),
   ("predictive_growth", "Expansion"),
   ("alternative_locations", "Expansion"),
   ("cultural_intel", "Execution"),
   ("negotiation_advantage", "Execution"),
   ("stakeholder_analysis", "Execution"),
   ("relationship_builder", "Execution"),
   ("final_review", "Execution")]

/-- Phase of an engine id: MODULE_PHASES[engineId] || 'Execution' (line 152). -/
def phaseOf (engineId : String) : String :=
  (MODULE_PHASES.lookup engineId).getD "Execution"

/-- The groups record built by enginesByPhase, with its four fixed keys
Macro, Integrity, Expansion, Execution (lines 144-149). -/
structure PhaseGroups where
  phMacro : List String
  phIntegrity : List String
  phExpansion : List String
  phExecution : List String
  deriving DecidableEq

/-- Body of the forEach loop of enginesByPhase (lines 151-156): push the
engine onto the group named by its phase; a phase string outside the four
keys would find no group and be dropped (the guard `if (groups[phase])`). -/
def pushEngine (g : PhaseGroups) (engineId : String) : PhaseGroups :=
  let phase := phaseOf engineId
  if phase = "Macro" then { g with phMacro := g.phMacro ++ [engineId] }
  else if phase = "Integrity" then { g with phIntegrity := g.phIntegrity ++ [engineId] }
  else if phase = "Expansion" then { g with phExpansion := g.phExpansion ++ [engineId] }
  else if phase = "Execution" then { g with phExecution := g.phExecution ++ [engineId] }
  else g

/-- The enginesByPhase memo (lines 143-159): fold the active engine list into
the four-key groups record, all groups starting empty. -/
def enginesByPhase (engines : List String) : PhaseGroups :=
  engines.foldl pushEngine ⟨[], [], [], []⟩

/-- A source attached to an agent reply: { title, uri }. -/
structure Source where
  title : String
  uri : String
  deriving DecidableEq

/-- ChatMessage from ../types as used by Inquire: sender is the string union
user | ai; agent and sources are optional. -/
structure ChatMessage where
  sender : String
  text : String
  agent : Option String
  sources : Option (List Source)
  deriving DecidableEq

/-- Result shape of the external orchestrateAgentResponse collaborator:
{ content, agent?, sources? }. -/
structure AgentResponse where
  content : String
  agent : Option String
  sources : Option (List Source)
  deriving DecidableEq

/-- The Inquire component state touched by handleSendMessage. -/
structure InquireState where
  messages : List ChatMessage
  inputText : String
  activeAgent : Option String
  agentStatus : String
  deriving DecidableEq

/-- JavaScript String.prototype.trim: strip leading and trailing whitespace,
embedded at the character-list level. -/
def jsTrim (s : String) : String :=
  String.mk ((s.toList.dropWhile Char.isWhitespace).reverse.dropWhile Char.isWhitespace).reverse

/-- JavaScript String.prototype.toLowerCase, embedded at the character-list
level (ASCII-relevant part of the Unicode mapping). -/
def jsToLower (s : String) : String :=
  String.mk (s.toList.map Char.toLower)

/-- JavaScript String.prototype.includes: substring containment, embedded as
infix containment of the character lists. -/
def strIncludes (s sub : String) : Bool :=
  decide (List.IsInfix sub.toList s.toList)

/-- The keyword classifier inside handleSendMessage (lines 656-665): the
lowercased text is tested for news or search, then negotiate, with
strategist as the default; the result is the agent tag and the transient
status line the handler shows. -/
def classifyAgent (userMsg : String) : String × String :=
  if strIncludes (jsToLower userMsg) "news" || strIncludes (jsToLower userMsg) "search" then
    ("scout", "Scouring global databases...")
  else if strIncludes (jsToLower userMsg) "negotiate" then
    ("diplomat", "Analyzing cultural nuance...")
  else
    ("strategist", "Simulating strategic outcomes...")

/-- The context string passed to the external responder (line 668). -/
def contextOf (params : ReportParameters) : String :=
  "User is a " ++ params.organizationType ++ " in " ++ params.region ++
    ". Industry: " ++ String.intercalate ", " params.industry ++ "."

/-- The fixed fallback reply text appended when the responder fails (line 679). -/
def fallbackText : String := "System overload. Re-routing..."

/-- The handleSendMessage handler (lines 649-684).  Empty trimmed input
returns immediately.  Otherwise the user message is appended and the input
cleared, the classifier sets the transient agent/status, the external
responder is consulted (an Except.error models a thrown/rejected promise,
handled by the catch block with the fixed fallback message), and the finally
block always clears the agent and status. -/
def handleSendMessage (params : ReportParameters)
    (responder : String → String → Except Unit AgentResponse)
    (st : InquireState) : InquireState :=
  if jsTrim st.inputText = "" then st
  else
    let userMsg := st.inputText
    let st1 : InquireState :=
      { st with
          messages := st.messages ++ [⟨"user", userMsg, none, none⟩],
          inputText := "" }
    let tag := classifyAgent userMsg
    let st2 : InquireState := { st1 with activeAgent := some tag.1, agentStatus := tag.2 }
    let st3 : InquireState :=
      match responder userMsg (contextOf params) with
      | Except.ok r =>
          { st2 with messages := st2.messages ++ [⟨"ai", r.content, r.agent, r.sources⟩] }
      | Except.error _ =>
          { st2 with messages := st2.messages ++ [⟨"ai", fallbackText, none, none⟩] }
    { st3 with activeAgent := none, agentStatus := "" }

/-! Helper lemmas. -/

/-- Membership in the selection after a toggle: x survives iff it was selected
and is not the toggled id, or it is the toggled id and was not selected. -/
theorem mem_toggleIntent (p : ReportParameters) (a x : String) :
    x ∈ ((toggleIntent p a).selectedIntents.getD []) ↔
      ((x ∈ (p.selectedIntents.getD []) ∧ x ≠ a) ∨
        (x = a ∧ a ∉ (p.selectedIntents.getD []))) := by
  unfold toggleIntent toggleNewIntents
  by_cases h : a ∈ p.selectedIntents.getD []
  · simp [List.elem_iff, h, List.mem_filter, bne_iff_ne]
  · simp [List.elem_iff, h]
    tauto

/-- The head of a list by pattern match is List.head?. -/
theorem matchHeadEq (L : List String) :
    (match L with | [] => (none : Option String) | x :: _ => some x) = L.head? := by
  cases L <;> rfl


/-! Claim theorems: request routing. -/

/-- C1: every user text gets exactly one agent tag, by case-insensitive
substring tests in fixed priority order: news or search gives scout, else
negotiate gives diplomat, else strategist; no text is unclassified, and a
text containing both news and negotiate is tagged scout. -/
theorem router_priority_and_totality (text : String) :
    (classifyAgent text).1 =
      (if strIncludes (jsToLower text) "news" || strIncludes (jsToLower text) "search"
        then "scout"
        else if strIncludes (jsToLower text) "negotiate" then "diplomat"
        else "strategist") ∧
    ((classifyAgent text).1 = "scout" ∨ (classifyAgent text).1 = "diplomat" ∨
      (classifyAgent text).1 = "strategist") ∧
    (classifyAgent "Breaking NEWS: we must negotiate").1 = "scout" := by
  refine ⟨?_, ?_, by decide⟩ <;>
    by_cases h1 : (strIncludes (jsToLower text) "news" ||
        strIncludes (jsToLower text) "search") = true <;>
      by_cases h2 : strIncludes (jsToLower text) "negotiate" = true <;>
        simp [classifyAgent, h1, h2]

/-- C2: for non-empty input, when the external responder fails the handler
appends the fixed fallback reply with no agent tag and no sources instead of
propagating the failure, and in every outcome (success or failure) the
processing status is cleared: the active agent is null and the status string
empty. -/
theorem route_failure_degrades_and_always_clears (params : ReportParameters)
    (responder : String → String → Except Unit AgentResponse) (st : InquireState)
    (h : ¬ jsTrim st.inputText = "") :
    (handleSendMessage params responder st).activeAgent = none ∧
    (handleSendMessage params responder st).agentStatus = "" ∧
    (∀ e : Unit, responder st.inputText (contextOf params) = Except.error e →
      (handleSendMessage params responder st).messages =
        st.messages ++ [⟨"user", st.inputText, none, none⟩,
          ⟨"ai", fallbackText, none, none⟩]) := by
  unfold handleSendMessage
  rw [if_neg h]
  refine ⟨rfl, rfl, ?_⟩
  intro e he
  simp [he]

/-- C8: submitting empty or whitespace-only input does nothing: the handler
returns before touching the transcript, the agent tag, or the responder, so
the whole session state is unchanged. -/
theorem empty_input_is_noop (params : ReportParameters)
    (responder : String → String → Except Unit AgentResponse) (st : InquireState)
    (h : jsTrim st.inputText = "") :
    handleSendMessage params responder st = st := by
  unfold handleSendMessage
  rw [if_pos h]

/-! Witness material for the routing claims. -/

/-- Concrete parameter record used by witnesses. -/
def wParams : ReportParameters :=
  ⟨"Jane", "NGO", "Asia", ["Energy"], none, none, none, false, none, none⟩

/-- Responder that always fails, modelling a rejected promise. -/
def wFailResponder : String → String → Except Unit AgentResponse :=
  fun _ _ => Except.error ()

/-- Concrete chat state with non-empty input. -/
def wChatState : InquireState := ⟨[], "hello", none, ""⟩

/-- Concrete chat state whose input is whitespace only. -/
def wBlankState : InquireState := ⟨[], "   ", some "scout", "busy"⟩

/-- Witness for C2 at a concrete state and a failing responder. -/
theorem route_failure_witness :
    (¬ jsTrim wChatState.inputText = "") ∧
    ((handleSendMessage wParams wFailResponder wChatState).activeAgent = none ∧
      (handleSendMessage wParams wFailResponder wChatState).agentStatus = "" ∧
      (∀ e : Unit, wFailResponder wChatState.inputText (contextOf wParams) = Except.error e →
        (handleSendMessage wParams wFailResponder wChatState).messages =
          wChatState.messages ++ [⟨"user", wChatState.inputText, none, none⟩,
            ⟨"ai", fallbackText, none, none⟩])) :=
  ⟨by decide,
    route_failure_degrades_and_always_clears wParams wFailResponder wChatState (by decide)⟩

/-- Witness for C8 at a concrete whitespace-only state. -/
theorem empty_input_noop_witness :
    (jsTrim wBlankState.inputText = "") ∧
    handleSendMessage wParams wFailResponder wBlankState = wBlankState :=
  ⟨by decide, empty_input_is_noop wParams wFailResponder wBlankState (by decide)⟩

/-! Claim theorems: selection state. -/

/-- C9: the selected-intents membership is order-insensitive: toggling a then
b gives the same membership as toggling b then a, and toggling the same id
twice restores the original membership. -/
theorem toggle_commutes_and_involutive (p : ReportParameters) (a b x : String) :
    ((x ∈ ((toggleIntent (toggleIntent p a) b).selectedIntents.getD [])) ↔
      (x ∈ ((toggleIntent (toggleIntent p b) a).selectedIntents.getD []))) ∧
    ((x ∈ ((toggleIntent (toggleIntent p a) a).selectedIntents.getD [])) ↔
      (x ∈ (p.selectedIntents.getD []))) := by
  constructor
  · simp only [mem_toggleIntent]
    by_cases hxa : x = a <;> by_cases hxb : x = b <;> by_cases hab : a = b <;>
      by_cases ha : a ∈ p.selectedIntents.getD [] <;>
        by_cases hb : b ∈ p.selectedIntents.getD [] <;>
          simp_all
  · simp only [mem_toggleIntent]
    by_cases hxa : x = a <;> by_cases ha : a ∈ p.selectedIntents.getD [] <;>
      simp_all

/-- C10: after a toggle the legacy selectedIntent field is the head of the
selectedIntents list (undefined when the list is empty), and the other
params-updating handlers of the component leave both fields untouched. -/
theorem legacy_intent_tracks_head (p : ReportParameters) (a : String)
    (catalog : List StrategicIntent) (refiner : String → String → Except Unit String)
    (file : Option String) :
    (toggleIntent p a).selectedIntent =
      ((toggleIntent p a).selectedIntents.getD []).head? ∧
    (handleProceedToCanvas catalog p).selectedIntent = p.selectedIntent ∧
    (handleProceedToCanvas catalog p).selectedIntents = p.selectedIntents ∧
    (handleInitialThoughtAnalysis refiner p).selectedIntent = p.selectedIntent ∧
    (handleInitialThoughtAnalysis refiner p).selectedIntents = p.selectedIntents ∧
    (handleFileUpload file p).selectedIntent = p.selectedIntent ∧
    (handleFileUpload file p).selectedIntents = p.selectedIntents := by
  refine ⟨?_, ?_, ?_, ?_, ?_, ?_, ?_⟩
  · show (match toggleNewIntents p a with
        | [] => (none : Option String) | x :: _ => some x) =
      ((some (toggleNewIntents p a)).getD []).head?
    rw [matchHeadEq, Option.getD_some]
  · unfold handleProceedToCanvas
    split <;> rfl
  · unfold handleProceedToCanvas
    split <;> rfl
  · unfold handleInitialThoughtAnalysis
    split
    · rfl
    · split <;> rfl
  · unfold handleInitialThoughtAnalysis
    split
    · rfl
    · split <;> rfl
  · unfold handleFileUpload
    split <;> rfl
  · unfold handleFileUpload
    split <;> rfl

/-! Helper lemmas for the composition resolver. -/

/-- Membership after a Set insertion. -/
theorem mem_insertUnique (l : List String) (x y : String) :
    y ∈ insertUnique l x ↔ y ∈ l ∨ y = x := by
  unfold insertUnique
  split
  · rename_i h
    by_cases hyx : y = x <;> simp_all
  · simp

/-- Membership after folding a module list into the Set. -/
theorem mem_foldl_insertUnique (mods acc : List String) (y : String) :
    y ∈ mods.foldl insertUnique acc ↔ y ∈ acc ∨ y ∈ mods := by
  induction mods generalizing acc with
  | nil => simp
  | cons m t ih =>
    rw [List.foldl_cons, ih, mem_insertUnique]
    simp
    tauto

/-- Membership after folding a selection into the Set: an element is there
iff it was already there or some selected id resolves in the catalog to an
intent recommending it. -/
theorem mem_foldl_addIntentModules (catalog : List StrategicIntent)
    (sel acc : List String) (y : String) :
    y ∈ sel.foldl (addIntentModules catalog) acc ↔
      y ∈ acc ∨ ∃ id ∈ sel, ∃ intent,
        catalog.find? (fun i => i.id == id) = some intent ∧
          y ∈ intent.recommendedModules := by
  induction sel generalizing acc with
  | nil => simp
  | cons s t ih =>
    rw [List.foldl_cons, ih]
    unfold addIntentModules
    cases hf : catalog.find? (fun i => i.id == s) with
    | none =>
      simp only [List.mem_cons]
      constructor
      · rintro (hy | ⟨id, hid, intent, hfind, hmem⟩)
        · exact Or.inl hy
        · exact Or.inr ⟨id, Or.inr hid, intent, hfind, hmem⟩
      · rintro (hy | ⟨id, hid | hid, intent, hfind, hmem⟩)
        · exact Or.inl hy
        · subst hid
          rw [hf] at hfind
          cases hfind
        · exact Or.inr ⟨id, hid, intent, hfind, hmem⟩
    | some intent0 =>
      rw [mem_foldl_insertUnique]
      simp only [List.mem_cons]
      constructor
      · rintro ((hy | hy) | ⟨id, hid, intent, hfind, hmem⟩)
        · exact Or.inl hy
        · exact Or.inr ⟨s, Or.inl rfl, intent0, hf, hy⟩
        · exact Or.inr ⟨id, Or.inr hid, intent, hfind, hmem⟩
      · rintro (hy | ⟨id, hid | hid, intent, hfind, hmem⟩)
        · exact Or.inl (Or.inl hy)
        · subst hid
          rw [hf] at hfind
          cases hfind
          exact Or.inl (Or.inr hmem)
        · exact Or.inr ⟨id, hid, intent, hfind, hmem⟩

/-- Membership in the resolved active module set: the two baseline modules,
plus everything recommended by a selected intent found in the catalog. -/
theorem mem_resolveEngines (catalog : List StrategicIntent) (sel : List String)
    (y : String) :
    y ∈ resolveEngines catalog sel ↔
      y = "geopolitics" ∨ y = "final_review" ∨ ∃ id ∈ sel, ∃ intent,
        catalog.find? (fun i => i.id == id) = some intent ∧
          y ∈ intent.recommendedModules := by
  unfold resolveEngines
  rw [mem_foldl_addIntentModules, mem_insertUnique, mem_insertUnique]
  simp
  tauto

/-! Helper lemmas for phase grouping. -/

/-- A successful association-list lookup returns one of the stored values. -/
theorem lookup_mem_snd (l : List (String × String)) (k v : String)
    (h : l.lookup k = some v) : v ∈ l.map Prod.snd := by
  induction l with
  | nil => simp [List.lookup] at h
  | cons hd t ih =>
    obtain ⟨k1, v1⟩ := hd
    unfold List.lookup at h
    split at h
    · cases h
      simp
    · simp only [List.map_cons, List.mem_cons]
      exact Or.inr (ih h)

/-- The phase of every engine id is one of the four fixed phases. -/
theorem phaseOf_mem_phases (e : String) :
    phaseOf e ∈ ["Macro", "Integrity", "Expansion", "Execution"] := by
  unfold phaseOf
  cases h : MODULE_PHASES.lookup e with
  | none => simp
  | some v =>
    have hv := lookup_mem_snd MODULE_PHASES e v h
    have hall : ∀ w ∈ MODULE_PHASES.map Prod.snd,
        w ∈ ["Macro", "Integrity", "Expansion", "Execution"] := by decide
    simpa using hall v hv

/-- Folding the push loop fills each of the four groups with exactly the
engines of the corresponding phase, appended in traversal order. -/
theorem foldl_pushEngine_spec (l : List String) (g : PhaseGroups) :
    (l.foldl pushEngine g).phMacro = g.phMacro ++ l.filter (fun e => phaseOf e == "Macro") ∧
    (l.foldl pushEngine g).phIntegrity =
      g.phIntegrity ++ l.filter (fun e => phaseOf e == "Integrity") ∧
    (l.foldl pushEngine g).phExpansion =
      g.phExpansion ++ l.filter (fun e => phaseOf e == "Expansion") ∧
    (l.foldl pushEngine g).phExecution =
      g.phExecution ++ l.filter (fun e => phaseOf e == "Execution") := by
  induction l generalizing g with
  | nil => simp
  | cons e t ih =>
    rw [List.foldl_cons]
    obtain ⟨ih1, ih2, ih3, ih4⟩ := ih (pushEngine g e)
    rw [ih1, ih2, ih3, ih4]
    have he := phaseOf_mem_phases e
    simp only [List.mem_cons, List.not_mem_nil, or_false] at he
    rcases he with h | h | h | h <;>
      simp [pushEngine, h, List.filter_cons]

/-- The count of any element in the filter of a phase. -/
theorem count_filter_phase (x ph : String) (l : List String) :
    (l.filter (fun e => phaseOf e == ph)).count x =
      if phaseOf x = ph then l.count x else 0 := by
  induction l with
  | nil => simp
  | cons e t ih =>
    rw [List.filter_cons]
    by_cases he : phaseOf e = ph <;> by_cases hx : e = x <;>
      simp_all [List.count_cons]

/-- Concatenating the four phase groups is a permutation of the active list. -/
theorem enginesByPhase_concat_perm (engines : List String) :
    ((enginesByPhase engines).phMacro ++ (enginesByPhase engines).phIntegrity ++
      (enginesByPhase engines).phExpansion ++
        (enginesByPhase engines).phExecution).Perm engines := by
  obtain ⟨h1, h2, h3, h4⟩ := foldl_pushEngine_spec engines ⟨[], [], [], []⟩
  unfold enginesByPhase
  rw [h1, h2, h3, h4]
  simp only [List.nil_append]
  rw [List.perm_iff_count]
  intro x
  rw [List.count_append, List.count_append, List.count_append,
    count_filter_phase, count_filter_phase, count_filter_phase, count_filter_phase]
  have hx := phaseOf_mem_phases x
  simp only [List.mem_cons, List.not_mem_nil, or_false] at hx
  rcases hx with h | h | h | h <;> simp [h]

/-! Claim theorems: composition resolver. -/

/-- C3: for every selection the resolved active module set contains the two
baseline modules geopolitics and final_review, and the set is fully
determined by the selection and the catalog: two parameter records agreeing
on selectedIntents resolve to the same engines whatever their other fields
and history are. -/
theorem baseline_and_selection_determined (catalog : List StrategicIntent)
    (p1 p2 : ReportParameters) (h : p1.selectedIntents = p2.selectedIntents) :
    "geopolitics" ∈ activeEngines catalog p1 ∧
    "final_review" ∈ activeEngines catalog p1 ∧
    activeEngines catalog p1 = activeEngines catalog p2 := by
  refine ⟨?_, ?_, ?_⟩
  · unfold activeEngines
    rw [mem_resolveEngines]
    exact Or.inl rfl
  · unfold activeEngines
    rw [mem_resolveEngines]
    exact Or.inr (Or.inl rfl)
  · unfold activeEngines
    rw [h]

/-- Witness for C3 at a concrete catalog and parameter record. -/
theorem baseline_and_selection_determined_witness :
    "geopolitics" ∈ activeEngines [] wParams ∧
    "final_review" ∈ activeEngines [] wParams ∧
    activeEngines [] wParams = activeEngines [] wParams :=
  baseline_and_selection_determined [] wParams wParams rfl

/-- C5: resolution is monotone: if one selection is contained in another as a
set of intent ids, every module resolved from the first is resolved from the
second. -/
theorem resolve_monotone (catalog : List StrategicIntent) (sel1 sel2 : List String)
    (hsub : ∀ id, id ∈ sel1 → id ∈ sel2) (x : String)
    (hx : x ∈ resolveEngines catalog sel1) : x ∈ resolveEngines catalog sel2 := by
  rw [mem_resolveEngines] at hx ⊢
  rcases hx with h | h | ⟨id, hid, intent, hfind, hmem⟩
  · exact Or.inl h
  · exact Or.inr (Or.inl h)
  · exact Or.inr (Or.inr ⟨id, hsub id hid, intent, hfind, hmem⟩)

/-- Witness for C5 on concrete selections with the empty catalog. -/
theorem resolve_monotone_witness :
    (∀ id, id ∈ ([] : List String) → id ∈ ["market_entry"]) ∧
    "geopolitics" ∈ resolveEngines [] [] ∧
    "geopolitics" ∈ resolveEngines [] ["market_entry"] :=
  ⟨by simp, by decide,
    resolve_monotone [] [] ["market_entry"] (by simp) "geopolitics" (by decide)⟩

/-- C6: the empty selection resolves to exactly the two baseline modules, and
phase grouping puts geopolitics in the Macro group and final_review in the
Execution group, the other two groups being empty, as the embedded
MODULE_PHASES catalog assigns. -/
theorem empty_selection_exactly_baseline (catalog : List StrategicIntent) :
    resolveEngines catalog [] = ["geopolitics", "final_review"] ∧
    enginesByPhase (resolveEngines catalog []) =
      ⟨["geopolitics"], [], [], ["final_review"]⟩ :=
  ⟨rfl, rfl⟩

/-- C7: unknown intent ids contribute nothing and raise no error: resolving a
selection equals resolving the selection restricted to the ids present in the
catalog. -/
theorem unknown_ids_dropped (catalog : List StrategicIntent) (sel : List String) :
    resolveEngines catalog sel =
      resolveEngines catalog
        (sel.filter (fun id => (catalog.find? (fun i => i.id == id)).isSome)) := by
  unfold resolveEngines
  generalize insertUnique (insertUnique [] "geopolitics") "final_review" = acc
  induction sel generalizing acc with
  | nil => rfl
  | cons s t ih =>
    rw [List.filter_cons]
    by_cases hf : (catalog.find? (fun i => i.id == s)).isSome
    · simp only [hf, if_true, List.foldl_cons]
      exact ih _
    · have hnone : addIntentModules catalog acc s = acc := by
        unfold addIntentModules
        cases hfind : catalog.find? (fun i => i.id == s) with
        | none => rfl
        | some v =>
          rw [hfind] at hf
          simp at hf
      simp only [hf, if_false, List.foldl_cons, hnone]
      exact ih acc

/-! Claim theorem: phase grouping. -/

/-- C4: phase grouping always produces the four groups Macro, Integrity,
Expansion, Execution (an inactive phase is an empty list, never omitted, by
construction of PhaseGroups); each group holds exactly the active engines
whose phase, looked up in MODULE_PHASES with Execution as the fallback for
missing ids, is that group's phase, so every active id lands in exactly one
group and the concatenation of the four groups is a permutation of the
active list; an id without a phase entry lands in the Execution group. -/
theorem phase_groups_partition (engines : List String) :
    (enginesByPhase engines).phMacro = engines.filter (fun e => phaseOf e == "Macro") ∧
    (enginesByPhase engines).phIntegrity =
      engines.filter (fun e => phaseOf e == "Integrity") ∧
    (enginesByPhase engines).phExpansion =
      engines.filter (fun e => phaseOf e == "Expansion") ∧
    (enginesByPhase engines).phExecution =
      engines.filter (fun e => phaseOf e == "Execution") ∧
    ((enginesByPhase engines).phMacro ++ (enginesByPhase engines).phIntegrity ++
      (enginesByPhase engines).phExpansion ++
        (enginesByPhase engines).phExecution).Perm engines ∧
    enginesByPhase ["mystery_engine"] = ⟨[], [], [], ["mystery_engine"]⟩ := by
  obtain ⟨h1, h2, h3, h4⟩ := foldl_pushEngine_spec engines ⟨[], [], [], []⟩
  refine ⟨?_, ?_, ?_, ?_, enginesByPhase_concat_perm engines, rfl⟩ <;>
    unfold enginesByPhase <;> simp [h1, h2, h3, h4]
